import Mathlib

/-!
Shallow embedding of the claims-KPI aggregation pipeline of
`relief_weekly_streamlit_app_final.py` (Relief weekly update Streamlit app).

Modelling conventions, used throughout:

* A pandas timestamp that has already gone through `pd.to_datetime(..., errors='coerce')`
  is modelled as `Option Int` (a day number; `none` is `NaT`).  The `'Claim Date'`
  column is only ever used at month granularity (`strftime('%Y-%m')`), so it is
  modelled as `Option YM` (year/month pair).
* A raw numeric cell is `Option ℚ` (`none` = NaN / unparseable); the source's
  `pd.to_numeric(..., errors='coerce').fillna(0)` is `toQ` (`Option.getD 0`).
* A raw string cell is `Option String` (`none` = NaN).  `.astype(str)` turns NaN
  into the literal string "nan" (`astypeStr`); `.fillna(x)` is `Option.getD x`.
* pandas string methods (`lower/upper/strip/contains`) are re-implemented on the
  character list of the string, because the code applies them to plain ASCII
  column values.
* `Series.round(n)` is numpy rounding, i.e. round-half-to-even (`rhe`, `round2`).
* `sort_values` is modelled with `List.insertionSort`; only the resulting order
  with respect to the sort key is claimed, never the tie-break order.
-/

namespace Relief

/-! ## Character/string helpers (pandas `.str` methods on ASCII data) -/

/-- ASCII lower-casing of one character, as `str.lower()` does on ASCII. -/
def lowChar (c : Char) : Char :=
  if 65 ≤ c.toNat ∧ c.toNat ≤ 90 then Char.ofNat (c.toNat + 32) else c

/-- ASCII upper-casing of one character, as `str.upper()` does on ASCII. -/
def upChar (c : Char) : Char :=
  if 97 ≤ c.toNat ∧ c.toNat ≤ 122 then Char.ofNat (c.toNat - 32) else c

/-- Whitespace test used by `str.strip()`. -/
def isSpaceCh (c : Char) : Bool := c == ' ' || c == '\t' || c == '\n' || c == '\r'

/-- `str.strip()` on a character list. -/
def trimChars (l : List Char) : List Char :=
  ((l.dropWhile isSpaceCh).reverse.dropWhile isSpaceCh).reverse

/-- Does `p` occur at the head of `l`? -/
def leadMatch : List Char → List Char → Bool
  | _, [] => true
  | [], _ :: _ => false
  | c :: cs, p :: ps => c == p && leadMatch cs ps

/-- Does `p` occur as a contiguous substring of `l`?  This is pandas
`str.contains(p, regex-free)`. -/
def subMatch (p : List Char) : List Char → Bool
  | [] => leadMatch [] p
  | c :: cs => leadMatch (c :: cs) p || subMatch p cs

/-- Lexicographic comparison of character lists by code point; this is how
pandas orders the string group keys of a `groupby`. -/
def lexLe : List Char → List Char → Bool
  | [], _ => true
  | _ :: _, [] => false
  | a :: as, b :: bs =>
    if a.toNat < b.toNat then true
    else if b.toNat < a.toNat then false
    else lexLe as bs

/-! ## numpy rounding -/

/-- Round-half-to-even to an integer, the rounding used by numpy / pandas
`Series.round(0)`. -/
def rhe (q : ℚ) : ℤ :=
  if q - ⌊q⌋ < 1/2 then ⌊q⌋
  else if (1/2 : ℚ) < q - ⌊q⌋ then ⌊q⌋ + 1
  else if ⌊q⌋ % 2 = 0 then ⌊q⌋ else ⌊q⌋ + 1

/-- pandas `Series.round(2)`: round-half-to-even at two decimals. -/
def round2 (q : ℚ) : ℚ := (rhe (q * 100) : ℚ) / 100

/-- Modelled from the spec: the "banker's-rounding-free standard rounding to the
nearest integer" that the specification claims for the `% Share` column
(round half away from the lower integer, i.e. half up for the nonnegative
shares at hand).  This is the spec-side definition used to compare against the
code's `rhe`. -/
def specRoundStd (q : ℚ) : ℤ := ⌊q + 1/2⌋

/-! ## Generic list helpers: keyed first-occurrence dedup, sorting, counting -/

variable {α : Type} {κ : Type}

/-- Worker for `dedupBy`: keeps the first row of each key, skipping keys
already `seen`. -/
def dedupSeen [DecidableEq κ] (key : α → κ) : List κ → List α → List α
  | _, [] => []
  | seen, r :: rs =>
    if key r ∈ seen then dedupSeen key seen rs
    else r :: dedupSeen key (key r :: seen) rs

/-- pandas `drop_duplicates(subset=[key], keep='first')`. -/
def dedupBy [DecidableEq κ] (key : α → κ) (l : List α) : List α := dedupSeen key [] l

theorem dedupSeen_subset [DecidableEq κ] (key : α → κ) :
    ∀ (seen : List κ) (l : List α), ∀ r ∈ dedupSeen key seen l, r ∈ l := by
  intro seen l
  induction l generalizing seen with
  | nil => intro r h; exact absurd h (by simp [dedupSeen])
  | cons x xs ih =>
    intro r h
    by_cases hx : key x ∈ seen
    · simp only [dedupSeen, if_pos hx] at h
      exact List.mem_cons_of_mem x (ih seen r h)
    · simp only [dedupSeen, if_neg hx] at h
      rcases List.mem_cons.mp h with h | h
      · exact h ▸ List.mem_cons_self x xs
      · exact List.mem_cons_of_mem x (ih _ r h)

theorem dedupSeen_length [DecidableEq κ] (key : α → κ) :
    ∀ (seen : List κ) (l : List α), (dedupSeen key seen l).length ≤ l.length := by
  intro seen l
  induction l generalizing seen with
  | nil => simp [dedupSeen]
  | cons x xs ih =>
    by_cases hx : key x ∈ seen
    · simp only [dedupSeen, if_pos hx]
      exact le_trans (ih seen) (Nat.le_succ _)
    · simp only [dedupSeen, if_neg hx, List.length_cons]
      exact Nat.succ_le_succ (ih _)

theorem mem_key_dedupSeen [DecidableEq κ] (key : α → κ) :
    ∀ (seen : List κ) (l : List α) (x : κ),
      x ∈ (dedupSeen key seen l).map key ↔ x ∈ l.map key ∧ x ∉ seen := by
  intro seen l
  induction l generalizing seen with
  | nil => simp [dedupSeen]
  | cons y ys ih =>
    intro x
    by_cases hy : key y ∈ seen
    · simp only [dedupSeen, if_pos hy, List.map_cons, List.mem_cons]
      rw [ih]
      constructor
      · rintro ⟨h1, h2⟩; exact ⟨Or.inr h1, h2⟩
      · rintro ⟨h1 | h1, h2⟩
        · exact absurd (h1 ▸ hy) h2
        · exact ⟨h1, h2⟩
    · simp only [dedupSeen, if_neg hy, List.map_cons, List.mem_cons]
      rw [ih]
      constructor
      · rintro (rfl | ⟨h1, h2⟩)
        · exact ⟨Or.inl rfl, hy⟩
        · refine ⟨Or.inr h1, fun hs => h2 (List.mem_cons_of_mem _ hs)⟩
      · rintro ⟨h1 | h1, h2⟩
        · exact Or.inl h1
        · by_cases hxy : x = key y
          · exact Or.inl hxy
          · exact Or.inr ⟨h1, by simp [hxy, h2]⟩

theorem nodup_key_dedupSeen [DecidableEq κ] (key : α → κ) :
    ∀ (seen : List κ) (l : List α), ((dedupSeen key seen l).map key).Nodup := by
  intro seen l
  induction l generalizing seen with
  | nil => simp [dedupSeen]
  | cons y ys ih =>
    by_cases hy : key y ∈ seen
    · simp only [dedupSeen, if_pos hy]
      exact ih seen
    · simp only [dedupSeen, if_neg hy, List.map_cons, List.nodup_cons]
      refine ⟨fun hmem => ?_, ih _⟩
      rw [mem_key_dedupSeen] at hmem
      exact hmem.2 (List.mem_cons_self _ _)

theorem find_dedupSeen [DecidableEq κ] [BEq κ] [LawfulBEq κ] (key : α → κ) :
    ∀ (seen : List κ) (l : List α), ∀ r ∈ dedupSeen key seen l,
      key r ∉ seen ∧ l.find? (fun s => key s == key r) = some r := by
  intro seen l
  induction l generalizing seen with
  | nil => intro r h; exact absurd h (by simp [dedupSeen])
  | cons x xs ih =>
    intro r h
    by_cases hx : key x ∈ seen
    · simp only [dedupSeen, if_pos hx] at h
      obtain ⟨hns, hf⟩ := ih seen r h
      have hne : (key x == key r) = false := by
        by_cases hxy : key x = key r
        · exact absurd (hxy ▸ hx) hns
        · simp [hxy]
      refine ⟨hns, ?_⟩
      rw [List.find?_cons_of_neg _ (by simp [hne]), hf]
    · simp only [dedupSeen, if_neg hx] at h
      rcases List.mem_cons.mp h with rfl | h
      · exact ⟨hx, by rw [List.find?_cons_of_pos _ (by simp)]⟩
      · obtain ⟨hns, hf⟩ := ih _ r h
        have hnr : ¬ key x = key r := fun hxy => hns (hxy ▸ List.mem_cons_self _ _)
        have hns' : key r ∉ seen := fun hs => hns (List.mem_cons_of_mem _ hs)
        refine ⟨hns', ?_⟩
        rw [List.find?_cons_of_neg _ (by simp [hnr]), hf]

/-- Deduplicate a plain key list, keeping first occurrences. -/
def dedupK [DecidableEq κ] (l : List κ) : List κ := dedupBy id l

theorem mem_dedupK [DecidableEq κ] (l : List κ) (x : κ) : x ∈ dedupK l ↔ x ∈ l := by
  have h := mem_key_dedupSeen (κ := κ) id [] l x
  simpa [dedupK, dedupBy] using h

theorem nodup_dedupK [DecidableEq κ] (l : List κ) : (dedupK l).Nodup := by
  have h := nodup_key_dedupSeen (κ := κ) id [] l
  simpa [dedupK, dedupBy] using h

/-- Ascending string order used by pandas when sorting `groupby` keys. -/
def strAsc (a b : String) : Prop := lexLe a.data b.data = true

instance : DecidableRel strAsc := fun _ _ => inferInstanceAs (Decidable (_ = true))

/-- Sorted presentation of a list of group keys (`groupby(sort=True)`);
only the underlying multiset is ever used by the theorems below. -/
def sortStrings (l : List String) : List String := List.insertionSort strAsc l

theorem sortStrings_perm (l : List String) : List.Perm (sortStrings l) l :=
  List.perm_insertionSort strAsc l

/-- Splitting a map-sum along a Boolean filter. -/
theorem sum_filter_split {M : Type} [AddCommMonoid M] (p : α → Bool) (f : α → M) :
    ∀ l : List α,
      ((l.filter p).map f).sum + ((l.filter (fun a => !(p a))).map f).sum = (l.map f).sum := by
  intro l
  induction l with
  | nil => simp
  | cons x xs ih =>
    by_cases hx : p x
    · simp only [List.filter_cons, hx, List.map_cons, List.sum_cons, Bool.not_true,
        Bool.false_eq_true, if_false, if_true]
      rw [add_assoc, ih]
    · simp only [List.filter_cons, hx, Bool.false_eq_true, if_false, Bool.not_false,
        if_true, List.map_cons, List.sum_cons]
      rw [add_left_comm, ih]

/-- Splitting a length along a Boolean filter. -/
theorem length_filter_split (p : α → Bool) :
    ∀ l : List α, (l.filter p).length + (l.filter (fun a => !(p a))).length = l.length := by
  intro l
  induction l with
  | nil => simp
  | cons x xs ih =>
    by_cases hx : p x
    · simp only [List.filter_cons, hx, if_true, Bool.not_true, Bool.false_eq_true, if_false,
        List.length_cons]
      omega
    · simp only [List.filter_cons, hx, Bool.false_eq_true, if_false, Bool.not_false, if_true,
        List.length_cons]
      omega

/-- Double counting: summing, over a duplicate-free key list covering `l`, the
sizes of the key-fibres of `l` gives the size of `l`. -/
theorem sum_length_fibres [DecidableEq κ] (f : α → κ) :
    ∀ (keys : List κ) (l : List α), keys.Nodup → (∀ a ∈ l, f a ∈ keys) →
      (keys.map (fun k => (l.filter (fun a => decide (f a = k))).length)).sum = l.length := by
  intro keys
  induction keys with
  | nil =>
    intro l _ hcov
    cases l with
    | nil => simp
    | cons x xs => exact absurd (hcov x (List.mem_cons_self _ _)) (by simp)
  | cons k ks ih =>
    intro l hnd hcov
    have hknotin : k ∉ ks := (List.nodup_cons.mp hnd).1
    have hrest : ∀ k' ∈ ks,
        (l.filter (fun a => decide (f a = k'))).length
          = ((l.filter (fun a => !(decide (f a = k)))).filter (fun a => decide (f a = k'))).length := by
      intro k' hk'
      have hk'k : k' ≠ k := fun h => hknotin (h ▸ hk')
      rw [List.filter_filter]
      have hpe : ∀ a ∈ l,
          (decide (f a = k') : Bool) = (decide (f a = k') && !(decide (f a = k))) := by
        intro a _
        by_cases hfa : f a = k'
        · have hfk : ¬ f a = k := fun h => hk'k (hfa ▸ h ▸ rfl)
          simp [hfa, hfk, hk'k]
        · simp [hfa]
      rw [List.filter_congr hpe]
    have hcov' : ∀ a ∈ l.filter (fun a => !(decide (f a = k))), f a ∈ ks := by
      intro a ha
      have hal := List.mem_of_mem_filter ha
      have hfa : ¬ f a = k := by
        have := List.of_mem_filter ha
        simpa using this
      rcases List.mem_cons.mp (hcov a hal) with h | h
      · exact absurd h hfa
      · exact h
    calc ((k :: ks).map (fun k => (l.filter (fun a => decide (f a = k))).length)).sum
        = (l.filter (fun a => decide (f a = k))).length
            + (ks.map (fun k' => (l.filter (fun a => decide (f a = k'))).length)).sum := by
          simp
      _ = (l.filter (fun a => decide (f a = k))).length
            + (ks.map (fun k' => ((l.filter (fun a => !(decide (f a = k)))).filter
                (fun a => decide (f a = k'))).length)).sum := by
          rw [List.map_congr_left hrest]
      _ = (l.filter (fun a => decide (f a = k))).length
            + (l.filter (fun a => !(decide (f a = k)))).length := by
          rw [ih _ (List.nodup_cons.mp hnd).2 hcov']
      _ = l.length := length_filter_split (fun a => decide (f a = k)) l

/-! ## Data model

`Row371` is one row of the 371.05 claim-detail report, with the date cells
already through `pd.to_datetime(..., errors='coerce')` and the raw numeric
cells as `Option ℚ` (see the module docstring).  `Start Date of Service` is
modelled as a day number because the code only subtracts and compares it;
`Claim Date` is modelled at year-month granularity because the code only
formats it with `'%Y-%m'`. -/

/-- A year-month pair, the granularity at which `Claim Date` is consumed. -/
structure YM where
  y : Int
  m : Int
deriving DecidableEq

/-- Zero-padding of the month used by `strftime('%Y-%m')`. -/
def pad2 (m : Int) : String := if 0 ≤ m ∧ m < 10 then "0" ++ toString m else toString m

/-- `strftime('%Y-%m')` on a parsed timestamp. -/
def ymStr (ym : YM) : String := toString ym.y ++ "-" ++ pad2 ym.m

/-- One row of the 371.05 claim-detail report (one billed CPT line). -/
structure Row371 where
  claimNo : String
  provider : Option String
  payer : Option String
  startDOS : Option Int
  claimDate : Option YM
  statusCode : Option String
  statusGroup : Option String
  billed : Option ℚ
  totalPayment : Option ℚ
  payerPayment : Option ℚ
  contractualAdj : Option ℚ
  allowedFee : Option ℚ
  totalBalance : Option ℚ
deriving DecidableEq

/-- The 371.05 batch.  The `has*` flags model the column-presence checks the
code performs (`'Start Date of Service' in pv.columns`, `'Claim Date' in
pv.columns`, `'Claim Status Code' in df.columns`, `'Total(Balance)' in
claims.columns`); when a flag is false the corresponding row fields are
never read. -/
structure Batch371 where
  rows : List Row371
  hasStartDOS : Bool
  hasClaimDate : Bool
  hasStatusCode : Bool
  hasTotalBalance : Bool
deriving DecidableEq

/-- One row of the 123.07 daily-transactions report (only the columns the
monthly summary consumes; the remaining REQUIRED_123 columns are unused by
the summary tables). -/
structure Row123 where
  date : Option YM
  billedCharges : ℚ
  patientPayments : ℚ
  payerPayments : ℚ
  contractualAdjustments : ℚ
deriving DecidableEq

/-- The 123.07 batch; `hasDate` models the `date123_col is None` guard. -/
structure Batch123 where
  rows : List Row123
  hasDate : Bool
deriving DecidableEq

/-! ## Record Normalizer helpers -/

/-- `pd.to_numeric(..., errors='coerce').fillna(0)`. -/
def toQ (o : Option ℚ) : ℚ := o.getD 0

/-- `.astype(str)` on a raw string cell: NaN becomes the literal "nan". -/
def astypeStr (o : Option String) : String := o.getD "nan"

/-- Line 112: `df['Primary Payer'].fillna('Unknown').astype(str)`. -/
def fillPayer (r : Row371) : String := r.payer.getD "Unknown"

/-- Line 113: `df['Rendering Provider'].fillna('').astype(str)`. -/
def fillProv (r : Row371) : String := r.provider.getD ""

/-- Line 44: the globally excluded rendering provider. -/
def EXCLUDE_PROVIDER : String := "salah, ahmad"

/-- Line 43: `DOS_CUTOFF = pd.to_datetime(date(2024, 11, 1))`, as a day number
on the same abstract day scale as `Row371.startDOS` (20028 = days from
1970-01-01 to 2024-11-01). -/
def DOS_CUTOFF : Int := 20028

/-- Line 140/309: `provider.str.lower().str.strip()`, compared against
`EXCLUDE_PROVIDER`. -/
def provKey (s : String) : List Char := trimChars (s.data.map lowChar)

/-- Line 202: `payer.astype(str).str.strip().str.upper()`, compared against
"SELF PAY". -/
def payerKey (s : String) : List Char := (trimChars s.data).map upChar

/-- Line 206: `status.astype(str).str.upper().str.contains("PAT")`. -/
def containsPAT (s : String) : Bool := subMatch "PAT".data (s.data.map upChar)

/-- Line 375: `group.astype(str).str.contains('den', case=False)`. -/
def containsDen (s : String) : Bool := subMatch "den".data (s.data.map lowChar)

/-- Line 116-119: the per-claim `Balance` column. -/
def balanceOf (b : Batch371) (r : Row371) : ℚ :=
  if b.hasTotalBalance then toQ r.totalBalance
  else toQ r.billed - toQ r.totalPayment - toQ r.contractualAdj

/-! ## Claim Deduplicator -/

/-- Line 108: `claims = df371.drop_duplicates(subset=['Claim No'])`. -/
def claimsOf (b : Batch371) : List Row371 := dedupBy (fun r => r.claimNo) b.rows

/-! ## Classification Engine: aging buckets (lines 209-211) -/

/-- The five aging bucket labels of line 210. -/
def agLabels : List String :=
  ["0 - 30 Days", "31 - 60 Days", "61 - 90 Days", "91 - 120 Days", "Above 120 Days"]

/-- Line 209-211: `pd.cut(x, bins=[-1, 30, 60, 90, 120, inf], labels=...)` on a
single (non-null) value: right-closed intervals, values outside every bin get
no label (NaN). -/
def agingBucketOf (d : Int) : Option String :=
  if -1 < d ∧ d ≤ 30 then some "0 - 30 Days"
  else if 30 < d ∧ d ≤ 60 then some "31 - 60 Days"
  else if 60 < d ∧ d ≤ 90 then some "61 - 90 Days"
  else if 90 < d ∧ d ≤ 120 then some "91 - 120 Days"
  else if 120 < d then some "Above 120 Days"
  else none

/-- Line 211: `pd.cut(df['AgingDays'].fillna(999999), ...)` — a null AgingDays
is first replaced by the high sentinel 999999. -/
def agingBucket (a : Option Int) : Option String := agingBucketOf (a.getD 999999)

/-! ## Insurance AR aging summary (lines 188-247)

This module re-reads the raw 371.05 file, so it works on line items (no
deduplication).  `today` is the externally supplied clock
(`pd.Timestamp.today().normalize()`). -/

/-- Line 199: `AgingDays = (today - df['Start Date of Service']).dt.days`. -/
def agingDays (today : Int) (r : Row371) : Option Int := r.startDOS.map (fun d => today - d)

/-- Lines 202-206: keep rows whose payer is not SELF PAY and (when the status
column exists) whose status code does not contain "PAT". -/
def arKeep (b : Batch371) (r : Row371) : Bool :=
  !(payerKey (astypeStr r.payer) == "SELF PAY".data)
    && (if b.hasStatusCode then !(containsPAT (astypeStr r.statusCode)) else true)

/-- The AR-aging working batch after the exclusion filters. -/
def arRows (b : Batch371) : List Row371 := b.rows.filter (arKeep b)

/-- The five summed columns of the AR aging summary. -/
structure AgCols where
  charges : ℚ
  allowedFee : ℚ
  expected : ℚ
  collected : ℚ
  pending : ℚ
deriving DecidableEq

/-- Lines 214-235: the per-bucket aggregation.  `groupby` on the `pd.cut`
categorical uses `observed=False`, so every one of the five labels produces a
row (empty groups sum to 0); rows whose AgingDays fell outside every bin
(negative values) match no label and are dropped by the groupby. -/
def agColsFor (today : Int) (b : Batch371) (L : String) : AgCols :=
  let g := (arRows b).filter (fun r => agingBucket (agingDays today r) == some L)
  { charges := (g.map (fun r => toQ r.billed)).sum
    allowedFee := (g.map (fun r => toQ r.allowedFee)).sum
    expected := (g.map (fun r => toQ r.allowedFee)).sum
    collected := (g.map (fun r => toQ r.totalPayment)).sum
    pending := (g.map (fun r => toQ r.allowedFee - toQ r.totalPayment)).sum }

/-- Lines 225-247: `aging_summary` plus the appended "Grand Total" row, whose
value in each column is the column sum of the five data rows. -/
def agingSummaryFull (today : Int) (b : Batch371) : List (String × AgCols) :=
  let data := agLabels.map (fun L => (L, agColsFor today b L))
  data ++ [("Grand Total",
    { charges := (data.map (fun x => x.2.charges)).sum
      allowedFee := (data.map (fun x => x.2.allowedFee)).sum
      expected := (data.map (fun x => x.2.expected)).sum
      collected := (data.map (fun x => x.2.collected)).sum
      pending := (data.map (fun x => x.2.pending)).sum })]

/-! ## Provider-level visits breakdown (lines 133-164) -/

/-- Lines 135-142: start from the deduplicated claims view, apply the DOS
cutoff when the `Start Date of Service` column exists (a NaT date compares
false and is dropped), drop the excluded provider, and deduplicate again. -/
def pvRows (b : Batch371) : List Row371 :=
  let pv := claimsOf b
  let pv := if b.hasStartDOS
    then pv.filter (fun r => match r.startDOS with
      | some d => decide (DOS_CUTOFF ≤ d)
      | none => false)
    else pv
  let pv := pv.filter (fun r => !(provKey (fillProv r) == EXCLUDE_PROVIDER.data))
  dedupBy (fun r => r.claimNo) pv

/-- Lines 144-147: the month label.  When the `Claim Date` column exists,
`pd.to_datetime(...).dt.strftime('%Y-%m')` leaves NaN (modelled `none`) on an
unparseable date; when the column is absent every row gets "Unknown". -/
def monthOf (b : Batch371) (r : Row371) : Option String :=
  if b.hasClaimDate then r.claimDate.map ymStr else some "Unknown"

/-- The rows that take part in the `groupby(['Rendering Provider','Month'])`:
pandas drops rows whose group key is NaN, i.e. rows with no month label. -/
def rowsM (b : Batch371) : List Row371 :=
  (pvRows b).filter (fun r => (monthOf b r).isSome)

/-- The distinct month labels (the `unstack` columns), in pandas key order. -/
def msOf (b : Batch371) : List String :=
  sortStrings (dedupK ((rowsM b).filterMap (monthOf b)))

/-- The distinct providers (the pivot rows), in pandas key order. -/
def psOf (b : Batch371) : List String :=
  sortStrings (dedupK ((rowsM b).map fillProv))

/-- One pivot cell: `['Claim No'].nunique()` over the (provider, month) group. -/
def cnt (b : Batch371) (p m : String) : ℕ :=
  ((((rowsM b).filter (fun r => fillProv r == p)).filter
      (fun r => monthOf b r == some m)).map (fun r => r.claimNo)).dedup.length

/-- One row of `pt_full`: the month cells, the row "Grand Total" and the
`% Share` value. -/
structure PtRow where
  label : String
  cells : List (String × ℕ)
  gt : ℕ
  share : ℚ
deriving DecidableEq

/-- Line 149-150: one data row of the pivot, `Grand Total = pt.sum(axis=1)`. -/
def ptRowFor (b : Batch371) (p : String) : PtRow :=
  { label := p
    cells := (msOf b).map (fun m => (m, cnt b p m))
    gt := ((msOf b).map (fun m => cnt b p m)).sum
    share := 0 }

/-- Lines 152-153: `total_row = pt.sum()` — every column (including the
`Grand Total` column) summed over the provider rows. -/
def ptTotalRow (b : Batch371) : PtRow :=
  { label := "Grand Total"
    cells := (msOf b).map (fun m => (m, ((psOf b).map (fun p => cnt b p m)).sum))
    gt := ((psOf b).map (fun p => (ptRowFor b p).gt)).sum
    share := 0 }

/-- The overall grand total `pt_full.loc['Grand Total','Grand Total']`. -/
def ptGrandTotalGt (b : Batch371) : ℕ := (ptTotalRow b).gt

/-- Lines 156-157: `% Share = ((row['Grand Total'] / total_claims) * 100).round(0)`
with `total_claims = pt_full.loc['Grand Total','Grand Total']`. -/
def setShare (b : Batch371) (r : PtRow) : PtRow :=
  { r with share := ((rhe ((r.gt : ℚ) / ((ptTotalRow b).gt : ℚ) * 100)) : ℚ) }

/-- Lines 149-157: `pt_full` with the appended total row and the `% Share`
column computed on every row after the concat. -/
def ptFull (b : Batch371) : List PtRow :=
  (((psOf b).map (ptRowFor b)) ++ [ptTotalRow b]).map (setShare b)

/-- Value of a named column in a `PtRow` (0 when the month column does not
exist, matching `unstack(fill_value=0)`). -/
def cellAt (r : PtRow) (m : String) : ℕ := (r.cells.lookup m).getD 0

/-! ## Payer mix (lines 166-180): count-threshold Minor-Category Folder -/

/-- Descending-by-count order for the payer-mix table. -/
def cntGe (a b : String × ℕ) : Prop := b.2 ≤ a.2

instance : DecidableRel cntGe := fun a b => inferInstanceAs (Decidable (b.2 ≤ a.2))

instance : IsTotal (String × ℕ) cntGe := ⟨fun a b => (le_total b.2 a.2).imp id id⟩

instance : IsTrans (String × ℕ) cntGe := ⟨fun _ _ _ h h' => le_trans h' h⟩

/-- Lines 169-170: `pm_counts = claims.groupby('Primary Payer')['Claim No'].nunique()`. -/
def pmCounts (b : Batch371) : List (String × ℕ) :=
  let cl := claimsOf b
  let keys := sortStrings (dedupK (cl.map fillPayer))
  keys.map (fun k => (k, ((cl.filter (fun r => fillPayer r == k)).map (fun r => r.claimNo)).dedup.length))

/-- Line 174: the categories with count strictly below `minor_threshold = 10`. -/
def minorC (counts : List (String × ℕ)) : List (String × ℕ) :=
  counts.filter (fun p => p.2 < 10)

/-- Lines 173-177: the kept categories, with the "Other minor payers" row
appended only when the minor set is nonempty. -/
def withOtherC (counts : List (String × ℕ)) : List (String × ℕ) :=
  if (minorC counts).isEmpty then counts.filter (fun p => 10 ≤ p.2)
  else counts.filter (fun p => 10 ≤ p.2)
    ++ [("Other minor payers", ((minorC counts).map (fun p => p.2)).sum)]

/-- Line 178: `major.sort_values('Claims', ascending=False)`. -/
def sortedC (counts : List (String × ℕ)) : List (String × ℕ) :=
  List.insertionSort cntGe (withOtherC counts)

/-- Lines 172-179: the folded table with
`Pct = (Claims / Claims.sum() * 100).round(2)`. -/
def foldCounts (counts : List (String × ℕ)) : List (String × ℕ × ℚ) :=
  (sortedC counts).map (fun p =>
    (p.1, p.2, round2 ((p.2 : ℚ) / ((((sortedC counts).map (fun p => p.2)).sum : ℕ) : ℚ) * 100)))

/-- The payer-mix table of the app. -/
def payerMix (b : Batch371) : List (String × ℕ × ℚ) := foldCounts (pmCounts b)

/-! ## Payments by payer (lines 305-324): quantile-threshold Minor-Category
Folder -/

/-- Descending-by-amount order for the payments table. -/
def amtGe2 (a b : String × ℚ) : Prop := b.2 ≤ a.2

instance : DecidableRel amtGe2 := fun a b => inferInstanceAs (Decidable (b.2 ≤ a.2))

instance : IsTotal (String × ℚ) amtGe2 := ⟨fun a b => (le_total b.2 a.2).imp id id⟩

instance : IsTrans (String × ℚ) amtGe2 := ⟨fun _ _ _ h h' => le_trans h' h⟩

/-- pandas `Series.quantile(0.10)` with the default linear interpolation:
`none` models the NaN returned on an empty series. -/
def quantile10 (l : List ℚ) : Option ℚ :=
  if l.isEmpty then none
  else
    let s := List.insertionSort (fun a b : ℚ => a ≤ b) l
    let h : ℚ := ((l.length : ℚ) - 1) / 10
    let i : ℕ := (⌊h⌋).toNat
    let lo := s.getD i 0
    some (lo + (h - (⌊h⌋ : ℚ)) * (s.getD (i + 1) lo - lo))

/-- Lines 314-316: the folding threshold — the 10th percentile of the summed
amounts, replaced by 1.0 when it is NaN or non-positive. -/
def effThreshold (tbl : List (String × ℚ)) : ℚ :=
  match quantile10 (tbl.map (fun p => p.2)) with
  | none => 1
  | some q => if q ≤ 0 then 1 else q

/-- Line 319: the categories whose summed amount is strictly below the
threshold. -/
def minorA (tbl : List (String × ℚ)) : List (String × ℚ) :=
  tbl.filter (fun p => p.2 < effThreshold tbl)

/-- Lines 318-322: the kept categories, with the "Other minor payers" row
appended only when the minor set is nonempty. -/
def withOtherA (tbl : List (String × ℚ)) : List (String × ℚ) :=
  if (minorA tbl).isEmpty then tbl.filter (fun p => effThreshold tbl ≤ p.2)
  else tbl.filter (fun p => effThreshold tbl ≤ p.2)
    ++ [("Other minor payers", ((minorA tbl).map (fun p => p.2)).sum)]

/-- Lines 318-324: fold the minor categories, then sort descending by amount
(line 324). -/
def foldAmounts (tbl : List (String × ℚ)) : List (String × ℚ) :=
  List.insertionSort amtGe2 (withOtherA tbl)

/-- Lines 308-312: line items (not deduplicated), excluded provider removed,
summed `Payer Payment` per payer. -/
def pbpTable (b : Batch371) : List (String × ℚ) :=
  let li := b.rows.filter (fun r => !(provKey (fillProv r) == EXCLUDE_PROVIDER.data))
  let keys := sortStrings (dedupK (li.map fillPayer))
  keys.map (fun k => (k, ((li.filter (fun r => fillPayer r == k)).map (fun r => toQ r.payerPayment)).sum))

/-- The payments-by-payer table of the app (`payments_by_payer_final`). -/
def paymentsByPayer (b : Batch371) : List (String × ℚ) := foldAmounts (pbpTable b)

/-! ## Monthly transaction summary (lines 265-296) -/

/-- The four summed columns of the monthly summary. -/
structure M4 where
  billed : ℚ
  patient : ℚ
  payer : ℚ
  contractual : ℚ
deriving DecidableEq

/-- Line 272: `Month = date.dt.to_period('M').astype(str)` — a NaT date
becomes the literal group key "NaT" (a real group, unlike `strftime`). -/
def m123Str (o : Option YM) : String :=
  match o with
  | some ym => ymStr ym
  | none => "NaT"

/-- English month abbreviations for `strftime('%b %Y')`. -/
def monthName (m : Int) : String :=
  if m = 1 then "Jan" else if m = 2 then "Feb" else if m = 3 then "Mar"
  else if m = 4 then "Apr" else if m = 5 then "May" else if m = 6 then "Jun"
  else if m = 7 then "Jul" else if m = 8 then "Aug" else if m = 9 then "Sep"
  else if m = 10 then "Oct" else if m = 11 then "Nov" else if m = 12 then "Dec"
  else toString m

/-- Lines 281-284: the `TRANSACTION MONTH` label (`'%b %Y'`); the NaT group
keeps a NaT label. -/
def transLabel (o : Option YM) : String :=
  match o with
  | some ym => monthName ym.m ++ " " ++ toString ym.y
  | none => "NaT"

/-- Group keys of the monthly summary in pandas order (sorted by the string
form of the month). -/
def mKeys (rows : List Row123) : List (Option YM) :=
  List.insertionSort (fun a b => lexLe (m123Str a).data (m123Str b).data = true)
    (dedupK (rows.map (fun r => r.date)))

/-- Lines 274-296: the monthly sums plus the appended "Grand Total" row. -/
def monthlySummaryFull (rows : List Row123) : List (String × M4) :=
  let data := (mKeys rows).map (fun k =>
    let g := rows.filter (fun r => r.date == k)
    (transLabel k,
      ({ billed := (g.map (fun r => r.billedCharges)).sum
         patient := (g.map (fun r => r.patientPayments)).sum
         payer := (g.map (fun r => r.payerPayments)).sum
         contractual := (g.map (fun r => r.contractualAdjustments)).sum } : M4)))
  data ++ [("Grand Total",
    { billed := (data.map (fun x => x.2.billed)).sum
      patient := (data.map (fun x => x.2.patient)).sum
      payer := (data.map (fun x => x.2.payer)).sum
      contractual := (data.map (fun x => x.2.contractual)).sum })]

/-! ## Remittance Normalizer / ERA (lines 340-371)

The raw ERA cells: `trace` may be a string or a numeric check number
(`astype(str)` stringifies it); `amount` is `Option ℚ` as elsewhere; `dated`
is a parsed timestamp — formatting it with `'%Y-%m-%d'` and re-parsing is the
identity at day granularity, so the format step is modelled as the identity
on the parsed value (NaT formats to NaN, which re-parses to NaT). -/

/-- A raw `Trace` cell. -/
inductive EraVal where
  | vStr (s : String)
  | vNum (q : ℚ)
deriving DecidableEq

/-- `astype(str)` on a `Trace` cell. -/
def eraValStr : EraVal → String
  | .vStr s => s
  | .vNum q => toString q

/-- One remittance row. -/
structure EraRow where
  payer : String
  method : String
  dated : Option Int
  trace : EraVal
  amount : Option ℚ
deriving DecidableEq

/-- A remittance dataframe: a column-name schema plus the rows. -/
structure EraDf where
  cols : List String
  rows : List EraRow
deriving DecidableEq

/-- Line 343: `needed_cols = ['Payer','Method','Dated','Trace','Amount']`. -/
def neededCols : List String := ["Payer", "Method", "Dated", "Trace", "Amount"]

/-- Lines 345-351: the canonical (renamed) output schema. -/
def canonCols : List String := ["PAYER", "METHOD", "DATE", "CHECK/EFT #", "AMOUNT"]

/-- Lines 354-357: per-row value normalization — trace to string, date
formatted, amount coerced to numeric with NaN as 0. -/
def coerceEraRow (r : EraRow) : EraRow :=
  { payer := r.payer
    method := r.method
    dated := r.dated
    trace := .vStr (eraValStr r.trace)
    amount := some (r.amount.getD 0) }

/-- The numeric `AMOUNT` of a (coerced) row. -/
def amtKey (r : EraRow) : ℚ := r.amount.getD 0

/-- Descending-by-amount order of line 360. -/
def eraGe (a b : EraRow) : Prop := amtKey b ≤ amtKey a

instance : DecidableRel eraGe := fun a b => inferInstanceAs (Decidable (amtKey b ≤ amtKey a))

instance : IsTotal EraRow eraGe := ⟨fun a b => (le_total (amtKey b) (amtKey a)).imp id id⟩

instance : IsTrans EraRow eraGe := ⟨fun _ _ _ h h' => le_trans h' h⟩

/-- The value-normalization-and-sort part of the ERA step (lines 354-360). -/
def normRows (rows : List EraRow) : List EraRow :=
  List.insertionSort eraGe (rows.map coerceEraRow)

/-- Lines 362-368: the appended "Grand Total" row, with blank strings in every
non-amount field. -/
def eraTotalRow (q : ℚ) : EraRow :=
  { payer := "Grand Total", method := "", dated := none, trace := .vStr "", amount := some q }

/-- Lines 343-369: the full ERA normalization.  `df_era[needed_cols]` raises a
`KeyError` when any required column is absent — modelled as the error branch;
on success the output carries the renamed canonical schema. -/
def normalizeEra (df : EraDf) : Except String EraDf :=
  if neededCols.all (fun c => df.cols.contains c) then
    let rows := normRows df.rows
    Except.ok { cols := canonCols, rows := rows ++ [eraTotalRow ((rows.map amtKey).sum)] }
  else Except.error "KeyError: required remittance columns are missing"

/-! ## Denials summarizer (lines 373-384) -/

/-- Descending-by-count order of line 382. -/
def denGe (a b : String × ℕ × ℚ) : Prop := b.2.1 ≤ a.2.1

instance : DecidableRel denGe := fun a b => inferInstanceAs (Decidable (b.2.1 ≤ a.2.1))

/-- Lines 374-383: denial rows grouped by status-group name with distinct-claim
count and summed balance, sorted descending by count.  A NaN group name
stringifies to "nan", which never contains "den", so the NaN-key drop of the
groupby is vacuous here. -/
def denSummary (b : Batch371) : List (String × ℕ × ℚ) :=
  let den := (claimsOf b).filter (fun r => containsDen (astypeStr r.statusGroup))
  let keys := sortStrings (dedupK (den.map (fun r => astypeStr r.statusGroup)))
  List.insertionSort denGe (keys.map (fun k =>
    let g := den.filter (fun r => astypeStr r.statusGroup == k)
    (k, (g.map (fun r => r.claimNo)).dedup.length, (g.map (fun r => balanceOf b r)).sum)))

/-! ## The script as a sequential run (order of the Streamlit sections)

The app is a straight-line script: each section renders its table in turn and
an uncaught exception in the ERA section (lines 341-371) aborts everything
after it — in particular the denials summary (lines 373-384) and the export.
`runScript` models which tables a single run produces and which error, if
any, it raises.  Note line 341-344: `df_era` is assigned only under
`if file_era is not None:` but is used unconditionally, so an absent upload
raises a `NameError`. -/

/-- The tables one run produces (`none` = not produced), plus the uncaught
error of the run, if any. -/
structure RunOut where
  providerVisits : Option (List PtRow)
  payerMixT : Option (List (String × ℕ × ℚ))
  arAging : Option (List (String × AgCols))
  monthly : Option (List (String × M4))
  paymentsT : Option (List (String × ℚ))
  eraTable : Option EraDf
  denials : Option (List (String × ℕ × ℚ))
  error : Option String
deriving DecidableEq

/-- One full run of the script on loaded 371.05 and 123.07 batches and an
optional ERA upload. -/
def runScript (today : Int) (b : Batch371) (t : Batch123) (eraUp : Option EraDf) : RunOut :=
  let base : RunOut :=
    { providerVisits := some (ptFull b)
      payerMixT := some (payerMix b)
      arAging := some (agingSummaryFull today b)
      monthly := if t.hasDate then some (monthlySummaryFull t.rows) else none
      paymentsT := some (paymentsByPayer b)
      eraTable := none
      denials := none
      error := none }
  match eraUp with
  | none => { base with error := some "NameError: name df_era is not defined" }
  | some df =>
    match normalizeEra df with
    | Except.error e => { base with error := some e }
    | Except.ok tbl => { base with eraTable := some tbl, denials := some (denSummary b) }

/-! ## Supporting lemmas -/

theorem beq_eq_decideEq {κ : Type} [DecidableEq κ] [BEq κ] [LawfulBEq κ] (a b : κ) :
    (a == b) = decide (a = b) := by
  by_cases h : a = b
  · simp [h]
  · simp [h]

theorem fst_nodup_unique {κ β : Type} :
    ∀ (l : List (κ × β)), (l.map Prod.fst).Nodup →
      ∀ {a : κ} {b c : β}, (a, b) ∈ l → (a, c) ∈ l → b = c := by
  intro l
  induction l with
  | nil => intro _ a b c h; exact absurd h (by simp)
  | cons x xs ih =>
    intro hnd a b c hb hc
    rw [List.map_cons, List.nodup_cons] at hnd
    rcases List.mem_cons.mp hb with rfl | hb
    · rcases List.mem_cons.mp hc with h | hc
      · exact (congrArg Prod.snd h).symm
      · exact absurd (List.mem_map.mpr ⟨(a, c), hc, rfl⟩) hnd.1
    · rcases List.mem_cons.mp hc with h | hc
      · rw [← h] at hnd
        exact absurd (List.mem_map.mpr ⟨(a, b), hb, rfl⟩) hnd.1
      · exact ih hnd.2 hb hc

theorem lookup_keyed (f : String → ℕ) :
    ∀ (ms : List String) (m : String),
      (List.lookup m (ms.map (fun m' => (m', f m')))).getD 0 = if m ∈ ms then f m else 0 := by
  intro ms
  induction ms with
  | nil => intro m; simp [List.lookup]
  | cons m' ms' ih =>
    intro m
    by_cases h : m = m'
    · simp [List.lookup, h]
    · have hbeq : (m == m') = false := by simp [h]
      simp only [List.map_cons, List.lookup, hbeq, List.mem_cons]
      rw [ih m]
      by_cases hm : m ∈ ms' <;> simp [hm, h]

/-! ## C1: aging bucketing -/

/-- C1 (counterexample).  The claim says every AgingDays value is assigned one
of the five buckets, but `pd.cut` with bins `[-1, 30, 60, 90, 120, inf]`
leaves any negative AgingDays (a future-dated service line, e.g. AgingDays =
-1) without a bucket: the value falls outside every bin and the row is
dropped from the aging groupby. -/
theorem C1_counterexample : agingBucket (some (-1)) = none := by decide

/-- C1 (amended).  For every nonnegative AgingDays value, and for a null
AgingDays (mapped through the 999999 sentinel), exactly one of the five
aging bucket labels is assigned; the boundary values 30, 60, 90, 120 belong
to the lower bucket (AgingDays = 30 gives "0 - 30 Days", 31 gives
"31 - 60 Days"), and null lands in "Above 120 Days". -/
theorem C1_aging_bucket_totality :
    (∀ a : Option Int, 0 ≤ a.getD 0 → ∃! L, L ∈ agLabels ∧ agingBucket a = some L)
    ∧ agingBucket (some 30) = some "0 - 30 Days"
    ∧ agingBucket (some 31) = some "31 - 60 Days"
    ∧ agingBucket (some 60) = some "31 - 60 Days"
    ∧ agingBucket (some 90) = some "61 - 90 Days"
    ∧ agingBucket (some 120) = some "91 - 120 Days"
    ∧ agingBucket none = some "Above 120 Days" := by
  refine ⟨?_, by decide, by decide, by decide, by decide, by decide, by decide⟩
  intro a ha
  cases a with
  | none =>
    exact ⟨"Above 120 Days", ⟨by decide, by decide⟩,
      fun y hy => by
        have h : some "Above 120 Days" = some y := by
          rw [← hy.2]; decide
        exact (Option.some.inj h).symm⟩
  | some d =>
    have hd : 0 ≤ d := by simpa using ha
    simp only [agingBucket, Option.getD_some, agingBucketOf]
    split_ifs with h1 h2 h3 h4 h5
    · exact ⟨_, ⟨by decide, rfl⟩, fun y hy => (Option.some.inj hy.2).symm⟩
    · exact ⟨_, ⟨by decide, rfl⟩, fun y hy => (Option.some.inj hy.2).symm⟩
    · exact ⟨_, ⟨by decide, rfl⟩, fun y hy => (Option.some.inj hy.2).symm⟩
    · exact ⟨_, ⟨by decide, rfl⟩, fun y hy => (Option.some.inj hy.2).symm⟩
    · exact ⟨_, ⟨by decide, rfl⟩, fun y hy => (Option.some.inj hy.2).symm⟩
    · omega

/-- C1 (witness): the totality part applied at AgingDays = 45. -/
theorem C1_witness :
    0 ≤ (some (45 : Int)).getD 0
    ∧ ∃! L, L ∈ agLabels ∧ agingBucket (some 45) = some L :=
  ⟨by decide, C1_aging_bucket_totality.1 (some 45) (by decide)⟩

/-! ## C3: the Claim Deduplicator -/

/-- C3.  `claims = df371.drop_duplicates(subset=['Claim No'])`: the output's
claim-identifier set equals the input's distinct claim-identifier set, the
output identifiers are pairwise distinct (one row per identifier), the output
never has more rows than the input, and every output row is literally the
first input row carrying its claim identifier (so line-level amounts are the
representative line's, not re-aggregated). -/
theorem C3_deduplicator (b : Batch371) :
    (∀ x, x ∈ (claimsOf b).map (fun r => r.claimNo) ↔ x ∈ b.rows.map (fun r => r.claimNo))
    ∧ ((claimsOf b).map (fun r => r.claimNo)).Nodup
    ∧ (claimsOf b).length ≤ b.rows.length
    ∧ ∀ r ∈ claimsOf b, b.rows.find? (fun s => s.claimNo == r.claimNo) = some r := by
  refine ⟨?_, ?_, ?_, ?_⟩
  · intro x
    have h := mem_key_dedupSeen (fun r : Row371 => r.claimNo) [] b.rows x
    simpa [claimsOf, dedupBy] using h
  · exact nodup_key_dedupSeen (fun r : Row371 => r.claimNo) [] b.rows
  · exact dedupSeen_length (fun r : Row371 => r.claimNo) [] b.rows
  · intro r hr
    exact (find_dedupSeen (fun r : Row371 => r.claimNo) [] b.rows r hr).2

/-! ## C7: absent remittance upload -/

/-- The empty claim-detail batch (used by concrete runs below). -/
def batch0 : Batch371 :=
  { rows := [], hasStartDOS := false, hasClaimDate := false,
    hasStatusCode := false, hasTotalBalance := false }

/-- The empty transactions batch. -/
def tbatch0 : Batch123 := { rows := [], hasDate := true }

/-- C7 (code bug).  The claim says an absent remittance upload makes the app
skip the ERA sections without an error, all non-ERA tables still being
produced.  In the code, `df_era` is assigned only inside
`if file_era is not None:` (line 341-342) but `df_era[needed_cols]` runs
unconditionally (line 344), so an absent upload raises a `NameError`; the
sections before the ERA block have already rendered, but the denials summary
(after the ERA block) is never produced.  This theorem evaluates the code's
behaviour: every run with an absent upload errors and loses the denials
table. -/
theorem C7_absent_upload_raises (today : Int) (b : Batch371) (t : Batch123) :
    (runScript today b t none).error = some "NameError: name df_era is not defined"
    ∧ (runScript today b t none).eraTable = none
    ∧ (runScript today b t none).denials = none
    ∧ (runScript today b t none).providerVisits = some (ptFull b)
    ∧ (runScript today b t none).payerMixT = some (payerMix b)
    ∧ (runScript today b t none).arAging = some (agingSummaryFull today b)
    ∧ (runScript today b t none).monthly
        = (if t.hasDate then some (monthlySummaryFull t.rows) else none)
    ∧ (runScript today b t none).paymentsT = some (paymentsByPayer b) := by
  refine ⟨rfl, rfl, rfl, rfl, rfl, rfl, rfl, rfl⟩

/-! ## C6: missing remittance field -/

theorem normalizeEra_error_of_missing (df : EraDf)
    (h : ∃ c ∈ neededCols, df.cols.contains c = false) :
    normalizeEra df = Except.error "KeyError: required remittance columns are missing" := by
  obtain ⟨c, hc, hfalse⟩ := h
  simp only [normalizeEra]
  rw [if_neg]
  intro hall
  rw [List.all_eq_true] at hall
  have := hall c hc
  rw [hfalse] at this
  exact Bool.false_ne_true this

/-- An ERA upload with the `Trace` column absent. -/
def dfNoTrace : EraDf := { cols := ["Payer", "Method", "Dated", "Amount"], rows := [] }

/-- A claim-detail batch carrying one denied claim, so the denials summary is
nonempty whenever it gets computed. -/
def batchDen : Batch371 :=
  { rows := [{ claimNo := "A1", provider := none, payer := none, startDOS := none,
               claimDate := none, statusCode := none, statusGroup := some "Denied",
               billed := none, totalPayment := none, payerPayment := none,
               contractualAdj := none, allowedFee := none, totalBalance := none }]
    hasStartDOS := false, hasClaimDate := false, hasStatusCode := false,
    hasTotalBalance := false }

/-- C6 (counterexample).  The claim says that on a remittance batch missing a
required field the pipeline signals the error and produces no ERA table
"while all other summary tables remain computable".  On this concrete run
(remittance upload missing `Trace`, one denied claim present) the script does
error and produces no ERA table, but the denials summary — one of the other
summary tables, computed after the ERA section — is not produced either,
even though its data (`denSummary batchDen`) is nonempty. -/
theorem C6_counterexample :
    (runScript 0 batchDen tbatch0 (some dfNoTrace)).error.isSome = true
    ∧ (runScript 0 batchDen tbatch0 (some dfNoTrace)).eraTable = none
    ∧ (runScript 0 batchDen tbatch0 (some dfNoTrace)).denials = none
    ∧ denSummary batchDen ≠ [] := by
  refine ⟨by decide, by decide, by decide, by decide⟩

/-- C6 (amended).  If any of the five required remittance fields is absent
from the uploaded remittance batch, the ERA step fails fast with the
missing-column error and produces no ERA table; the summary tables computed
before the ERA section (provider visits, payer mix, AR aging, monthly
summary, payments by payer) are still produced, but the denials summary,
which runs after the ERA section, is not. -/
theorem C6_missing_field_fails_fast (today : Int) (b : Batch371) (t : Batch123) (df : EraDf)
    (h : ∃ c ∈ neededCols, df.cols.contains c = false) :
    (runScript today b t (some df)).error
        = some "KeyError: required remittance columns are missing"
    ∧ (runScript today b t (some df)).eraTable = none
    ∧ (runScript today b t (some df)).denials = none
    ∧ (runScript today b t (some df)).providerVisits = some (ptFull b)
    ∧ (runScript today b t (some df)).payerMixT = some (payerMix b)
    ∧ (runScript today b t (some df)).arAging = some (agingSummaryFull today b)
    ∧ (runScript today b t (some df)).monthly
        = (if t.hasDate then some (monthlySummaryFull t.rows) else none)
    ∧ (runScript today b t (some df)).paymentsT = some (paymentsByPayer b) := by
  have he := normalizeEra_error_of_missing df h
  simp [runScript, he]

/-- C6 (witness): the amended theorem applied to the Trace-less upload. -/
theorem C6_witness :
    (∃ c ∈ neededCols, dfNoTrace.cols.contains c = false)
    ∧ ((runScript 0 batch0 tbatch0 (some dfNoTrace)).error
          = some "KeyError: required remittance columns are missing"
        ∧ (runScript 0 batch0 tbatch0 (some dfNoTrace)).eraTable = none
        ∧ (runScript 0 batch0 tbatch0 (some dfNoTrace)).denials = none) :=
  ⟨⟨"Trace", by decide, by decide⟩,
    let h := C6_missing_field_fails_fast 0 batch0 tbatch0 dfNoTrace
      ⟨"Trace", by decide, by decide⟩
    ⟨h.1, h.2.1, h.2.2.1⟩⟩

/-! ## C9: ERA normalizer idempotence -/

/-- The success payload of the ERA step, when any. -/
def exOk (e : Except String EraDf) : Option EraDf :=
  match e with
  | Except.ok t => some t
  | Except.error _ => none

/-- C9 (counterexample).  The claim says the Remittance Normalizer is
idempotent on its own output up to ordering tie-breaks.  It is not: the
normalizer renames the columns to the canonical schema, so re-applying it to
its own output fails the `df_era[needed_cols]` selection with a `KeyError`
and produces no table at all.  Concretely, normalizing a well-formed upload
succeeds, and normalizing that output errors. -/
theorem C9_counterexample :
    (exOk (normalizeEra { cols := neededCols, rows := [] })).isSome = true
    ∧ ((exOk (normalizeEra { cols := neededCols, rows := [] })).bind
        (fun t => exOk (normalizeEra t))) = none := by
  refine ⟨by decide, by decide⟩

theorem coerceEraRow_idem (r : EraRow) : coerceEraRow (coerceEraRow r) = coerceEraRow r := by
  simp [coerceEraRow, eraValStr]

/-- C9 (amended).  The Remittance Normalizer is not idempotent on its own
output: the canonical output schema no longer carries the raw column names,
so a second application always fails the column selection (first part).  The
value-level portion that the claim describes — trace-to-string coercion,
date formatting, amount coercion and the descending sort, taken without the
column renaming and the grand-total append — is idempotent on the data rows
(second part); only ordering tie-breaks are unspecified, and the model's
stable sort leaves a sorted list unchanged. -/
theorem C9_era_not_idempotent :
    (∀ (df t : EraDf), normalizeEra df = Except.ok t → exOk (normalizeEra t) = none)
    ∧ (∀ rows : List EraRow, normRows (normRows rows) = normRows rows) := by
  constructor
  · intro df t h
    by_cases hc : neededCols.all (fun c => df.cols.contains c) = true
    · simp only [normalizeEra, if_pos hc] at h
      have ht : t.cols = canonCols := by
        rw [← Except.ok.inj h]
      have hall : (neededCols.all (fun c => t.cols.contains c)) = false := by
        rw [ht]; decide
      unfold normalizeEra
      rw [hall]
      simp [exOk]
    · simp only [normalizeEra, if_neg hc] at h
      exact absurd h (by simp)
  · intro rows
    have hmap : (List.insertionSort eraGe (rows.map coerceEraRow)).map coerceEraRow
        = List.insertionSort eraGe (rows.map coerceEraRow) := by
      have hfix : ∀ r ∈ List.insertionSort eraGe (rows.map coerceEraRow),
          coerceEraRow r = r := by
        intro r hr
        have : r ∈ rows.map coerceEraRow :=
          (List.perm_insertionSort eraGe (rows.map coerceEraRow)).mem_iff.mp hr
        obtain ⟨y, _, rfl⟩ := List.mem_map.mp this
        exact coerceEraRow_idem y
      calc (List.insertionSort eraGe (rows.map coerceEraRow)).map coerceEraRow
          = (List.insertionSort eraGe (rows.map coerceEraRow)).map id :=
            List.map_congr_left hfix
        _ = _ := List.map_id _
    simp only [normRows]
    rw [hmap]
    exact (List.sorted_insertionSort eraGe (rows.map coerceEraRow)).insertionSort_eq

/-- C9 (witness): the first part applied to a concrete well-formed upload and
its concrete normalized output. -/
theorem C9_witness :
    normalizeEra { cols := neededCols, rows := [] }
        = Except.ok { cols := canonCols, rows := [eraTotalRow 0] }
    ∧ exOk (normalizeEra { cols := canonCols, rows := [eraTotalRow 0] }) = none :=
  ⟨rfl,
    C9_era_not_idempotent.1 { cols := neededCols, rows := [] }
      { cols := canonCols, rows := [eraTotalRow 0] } rfl⟩

/-! ## C2: grand-total rows -/

theorem cellAt_ptRowFor (b : Batch371) (p m : String) :
    cellAt (ptRowFor b p) m = if m ∈ msOf b then cnt b p m else 0 :=
  lookup_keyed (cnt b p) (msOf b) m

theorem cellAt_ptTotalRow (b : Batch371) (m : String) :
    cellAt (ptTotalRow b) m
      = if m ∈ msOf b then ((psOf b).map (fun p => cnt b p m)).sum else 0 :=
  lookup_keyed (fun m' => ((psOf b).map (fun p => cnt b p m')).sum) (msOf b) m

theorem ptFull_split (b : Batch371) :
    ptFull b
      = (psOf b).map (fun p => setShare b (ptRowFor b p)) ++ [setShare b (ptTotalRow b)] := by
  simp only [ptFull, List.map_append, List.map_map, List.map_cons, List.map_nil]
  rfl

/-- C2.  In each of the three Aggregator outputs — the AR-aging summary, the
provider-visit cross-tab and the monthly transaction summary — the appended
"Grand Total" row's value in every summed column equals the column-wise sum
of that column over the non-total data rows (for the cross-tab: every month
column and the `Grand Total` column). -/
theorem C2_grand_total_rows (today : Int) (b : Batch371) (rows123 : List Row123) :
    (∃ g, (agingSummaryFull today b).getLast? = some ("Grand Total", g)
      ∧ g.charges = (((agingSummaryFull today b).dropLast).map (fun x => x.2.charges)).sum
      ∧ g.allowedFee = (((agingSummaryFull today b).dropLast).map (fun x => x.2.allowedFee)).sum
      ∧ g.expected = (((agingSummaryFull today b).dropLast).map (fun x => x.2.expected)).sum
      ∧ g.collected = (((agingSummaryFull today b).dropLast).map (fun x => x.2.collected)).sum
      ∧ g.pending = (((agingSummaryFull today b).dropLast).map (fun x => x.2.pending)).sum)
    ∧ (∃ tr, (ptFull b).getLast? = some tr ∧ tr.label = "Grand Total"
      ∧ (∀ m, cellAt tr m = (((ptFull b).dropLast).map (fun r => cellAt r m)).sum)
      ∧ tr.gt = (((ptFull b).dropLast).map (fun r => r.gt)).sum)
    ∧ (∃ g, (monthlySummaryFull rows123).getLast? = some ("Grand Total", g)
      ∧ g.billed = (((monthlySummaryFull rows123).dropLast).map (fun x => x.2.billed)).sum
      ∧ g.patient = (((monthlySummaryFull rows123).dropLast).map (fun x => x.2.patient)).sum
      ∧ g.payer = (((monthlySummaryFull rows123).dropLast).map (fun x => x.2.payer)).sum
      ∧ g.contractual
          = (((monthlySummaryFull rows123).dropLast).map (fun x => x.2.contractual)).sum) := by
  refine ⟨?_, ?_, ?_⟩
  · simp only [agingSummaryFull]
    rw [List.getLast?_concat, List.dropLast_concat]
    exact ⟨_, rfl, rfl, rfl, rfl, rfl, rfl⟩
  · rw [ptFull_split b, List.getLast?_concat, List.dropLast_concat]
    refine ⟨_, rfl, rfl, ?_, ?_⟩
    · intro m
      show cellAt (ptTotalRow b) m = _
      rw [cellAt_ptTotalRow, List.map_map]
      have hcells : ∀ p ∈ psOf b,
          ((fun r => cellAt r m) ∘ (fun p => setShare b (ptRowFor b p))) p
            = if m ∈ msOf b then cnt b p m else 0 := fun p _ => cellAt_ptRowFor b p m
      rw [List.map_congr_left hcells]
      by_cases hm : m ∈ msOf b
      · simp only [if_pos hm]
      · simp only [if_neg hm]
        symm
        apply List.sum_eq_zero
        intro x hx
        obtain ⟨p, _, rfl⟩ := List.mem_map.mp hx
        rfl
    · show (ptTotalRow b).gt = _
      rw [List.map_map]
      have hgt : ∀ p ∈ psOf b,
          ((fun r => r.gt) ∘ (fun p => setShare b (ptRowFor b p))) p = (ptRowFor b p).gt :=
        fun p _ => rfl
      rw [List.map_congr_left hgt]
      rfl
  · simp only [monthlySummaryFull]
    rw [List.getLast?_concat, List.dropLast_concat]
    exact ⟨_, rfl, rfl, rfl, rfl, rfl⟩

/-! ## C4: count-threshold folding of the payer mix -/

theorem mem_withOtherC (counts : List (String × ℕ)) (y : String × ℕ) :
    y ∈ withOtherC counts
      ↔ (y ∈ counts ∧ 10 ≤ y.2)
        ∨ (minorC counts ≠ []
            ∧ y = ("Other minor payers", ((minorC counts).map (fun p => p.2)).sum)) := by
  unfold withOtherC
  by_cases h : (minorC counts).isEmpty = true
  · rw [if_pos h]
    have hnil : minorC counts = [] := by
      cases hm : minorC counts with
      | nil => rfl
      | cons a l => rw [hm] at h; exact absurd h (by simp)
    simp [List.mem_filter, hnil]
  · rw [if_neg h]
    have hne : minorC counts ≠ [] := fun hh => h (by simp [hh])
    simp [List.mem_filter, hne]

theorem sortedC_perm (counts : List (String × ℕ)) :
    List.Perm (sortedC counts) (withOtherC counts) :=
  List.perm_insertionSort cntGe (withOtherC counts)

theorem minorC_compl (counts : List (String × ℕ)) :
    counts.filter (fun p => !(decide (10 ≤ p.2))) = minorC counts := by
  unfold minorC
  apply List.filter_congr
  intro a _
  by_cases hc : a.2 < 10
  · simp [hc, Nat.not_le.mpr hc]
  · simp [hc, Nat.not_lt.mp hc]

theorem sumC (counts : List (String × ℕ)) :
    ((sortedC counts).map (fun p => p.2)).sum = (counts.map (fun p => p.2)).sum := by
  have h1 : ((sortedC counts).map (fun p => p.2)).sum
      = ((withOtherC counts).map (fun p => p.2)).sum :=
    ((sortedC_perm counts).map (fun p => p.2)).sum_eq
  have hsplit := sum_filter_split (fun p : String × ℕ => decide (10 ≤ p.2)) (fun p => p.2) counts
  rw [minorC_compl counts] at hsplit
  rw [h1]
  unfold withOtherC
  by_cases h : (minorC counts).isEmpty = true
  · rw [if_pos h]
    have hnil : minorC counts = [] := by
      cases hm : minorC counts with
      | nil => rfl
      | cons a l => rw [hm] at h; exact absurd h (by simp)
    rw [hnil] at hsplit
    simpa using hsplit
  · rw [if_neg h]
    rw [List.map_append, List.sum_append]
    simpa using hsplit

theorem mem_foldCounts (counts : List (String × ℕ)) (x : String × ℕ × ℚ) :
    x ∈ foldCounts counts
      ↔ ∃ y ∈ withOtherC counts,
          x = (y.1, y.2,
            round2 ((y.2 : ℚ) / (((counts.map (fun p => p.2)).sum : ℕ) : ℚ) * 100)) := by
  unfold foldCounts
  simp only [sumC, List.mem_map]
  constructor
  · rintro ⟨y, hy, rfl⟩
    exact ⟨y, (sortedC_perm counts).mem_iff.mp hy, rfl⟩
  · rintro ⟨y, hy, rfl⟩
    exact ⟨y, (sortedC_perm counts).mem_iff.mpr hy, rfl⟩

/-- C4.  Count-threshold folding of the payer mix: every category with
unique-claim count strictly below 10 disappears into the single "Other minor
payers" row whose count is the sum of the folded counts; categories at or
above the threshold are kept as-is; no "Other" row appears when nothing is
below the threshold; the table is sorted descending by count; every row's
`Pct` equals `count / total * 100` rounded (half-to-even) to 2 decimals,
with `total` the sum of all input counts; and the spec's scenario
{X:50, Y:8, Z:3} produces exactly {X:50, Other:11} with X first. -/
theorem C4_count_threshold_folding (counts : List (String × ℕ))
    (hnd : (counts.map (fun p => p.1)).Nodup)
    (hoth : "Other minor payers" ∉ counts.map (fun p => p.1)) :
    (∀ pc ∈ counts, pc.2 < 10 → ∀ x ∈ foldCounts counts, x.1 ≠ pc.1)
    ∧ (∀ pc ∈ counts, 10 ≤ pc.2 → ∃ q, (pc.1, pc.2, q) ∈ foldCounts counts)
    ∧ ((∃ pc ∈ counts, pc.2 < 10) → ∃ q,
        ("Other minor payers",
          ((counts.filter (fun p => p.2 < 10)).map (fun p => p.2)).sum, q) ∈ foldCounts counts)
    ∧ ((∀ pc ∈ counts, 10 ≤ pc.2) →
        ∀ x ∈ foldCounts counts, x.1 ∈ counts.map (fun p => p.1))
    ∧ (foldCounts counts).Sorted (fun x y => y.2.1 ≤ x.2.1)
    ∧ (∀ x ∈ foldCounts counts,
        x.2.2 = round2 ((x.2.1 : ℚ) / (((counts.map (fun p => p.2)).sum : ℕ) : ℚ) * 100))
    ∧ (foldCounts [("X", 50), ("Y", 8), ("Z", 3)]).map (fun x => (x.1, x.2.1))
        = [("X", 50), ("Other minor payers", 11)] := by
  refine ⟨?_, ?_, ?_, ?_, ?_, ?_, by decide⟩
  · intro pc hpc hlt x hx heq
    obtain ⟨y, hy, rfl⟩ := (mem_foldCounts counts x).mp hx
    rcases (mem_withOtherC counts y).mp hy with ⟨hyc, hyge⟩ | ⟨_, rfl⟩
    · have hy2 : (pc.1, y.2) ∈ counts := by
        have : y = (pc.1, y.2) := by
          rw [← heq]
        rw [← this]
        exact hyc
      have : y.2 = pc.2 := fst_nodup_unique counts hnd hy2 hpc
      omega
    · have heq' : "Other minor payers" = pc.1 := heq
      exact hoth (heq'.symm ▸ List.mem_map.mpr ⟨pc, hpc, rfl⟩)
  · intro pc hpc hge
    refine ⟨_, (mem_foldCounts counts _).mpr ⟨pc, ?_, rfl⟩⟩
    exact (mem_withOtherC counts pc).mpr (Or.inl ⟨hpc, hge⟩)
  · rintro ⟨pc, hpc, hlt⟩
    have hne : minorC counts ≠ [] :=
      List.ne_nil_of_mem (List.mem_filter.mpr ⟨hpc, by simpa using hlt⟩)
    refine ⟨_, (mem_foldCounts counts _).mpr
      ⟨("Other minor payers", ((minorC counts).map (fun p => p.2)).sum), ?_, rfl⟩⟩
    exact (mem_withOtherC counts _).mpr (Or.inr ⟨hne, rfl⟩)
  · intro hall x hx
    obtain ⟨y, hy, rfl⟩ := (mem_foldCounts counts x).mp hx
    rcases (mem_withOtherC counts y).mp hy with ⟨hyc, _⟩ | ⟨hne, _⟩
    · exact List.mem_map.mpr ⟨y, hyc, rfl⟩
    · exact absurd (List.filter_eq_nil_iff.mpr
        (fun pc hpc => by simpa using Nat.not_lt.mpr (hall pc hpc))) hne
  · have hs : (sortedC counts).Sorted cntGe := List.sorted_insertionSort cntGe _
    unfold foldCounts
    unfold List.Sorted
    rw [List.pairwise_map]
    exact hs.imp (fun h => h)
  · intro x hx
    obtain ⟨y, hy, rfl⟩ := (mem_foldCounts counts x).mp hx
    rfl

/-- C4 (witness): the scenario input satisfies the hypotheses, and the folded
scenario table is sorted descending by count. -/
theorem C4_witness :
    ((([("X", 50), ("Y", 8), ("Z", 3)] : List (String × ℕ)).map (fun p => p.1)).Nodup
      ∧ "Other minor payers"
          ∉ ([("X", 50), ("Y", 8), ("Z", 3)] : List (String × ℕ)).map (fun p => p.1))
    ∧ (foldCounts [("X", 50), ("Y", 8), ("Z", 3)]).Sorted (fun x y => y.2.1 ≤ x.2.1) :=
  ⟨⟨by decide, by decide⟩,
    (C4_count_threshold_folding [("X", 50), ("Y", 8), ("Z", 3)]
      (by decide) (by decide)).2.2.2.2.1⟩

/-! ## C5: quantile-threshold folding of payments by payer -/

theorem mem_withOtherA (tbl : List (String × ℚ)) (y : String × ℚ) :
    y ∈ withOtherA tbl
      ↔ (y ∈ tbl ∧ effThreshold tbl ≤ y.2)
        ∨ (minorA tbl ≠ []
            ∧ y = ("Other minor payers", ((minorA tbl).map (fun p => p.2)).sum)) := by
  unfold withOtherA
  by_cases h : (minorA tbl).isEmpty = true
  · rw [if_pos h]
    have hnil : minorA tbl = [] := by
      cases hm : minorA tbl with
      | nil => rfl
      | cons a l => rw [hm] at h; exact absurd h (by simp)
    simp [List.mem_filter, hnil]
  · rw [if_neg h]
    have hne : minorA tbl ≠ [] := fun hh => h (by simp [hh])
    simp [List.mem_filter, hne]

theorem mem_foldAmounts (tbl : List (String × ℚ)) (x : String × ℚ) :
    x ∈ foldAmounts tbl ↔ x ∈ withOtherA tbl :=
  (List.perm_insertionSort amtGe2 (withOtherA tbl)).mem_iff

/-- C5.  Quantile-threshold folding of the payments-by-payer table: the
threshold is the 10th percentile of the per-category summed amounts,
replaced by 1.0 when that quantile is undefined (NaN, i.e. an empty table)
or non-positive; every category strictly below the threshold is folded into
the single "Other minor payers" row carrying the folded amounts' sum;
categories at or above the threshold are kept as-is; no "Other" row appears
when nothing is below the threshold; and the result is sorted descending by
amount after the folding. -/
theorem C5_quantile_threshold_folding (tbl : List (String × ℚ))
    (hnd : (tbl.map (fun p => p.1)).Nodup)
    (hoth : "Other minor payers" ∉ tbl.map (fun p => p.1)) :
    (effThreshold tbl
      = (match quantile10 (tbl.map (fun p => p.2)) with
          | none => 1
          | some q => if q ≤ 0 then 1 else q))
    ∧ (∀ pa ∈ tbl, pa.2 < effThreshold tbl → ∀ x ∈ foldAmounts tbl, x.1 ≠ pa.1)
    ∧ (∀ pa ∈ tbl, effThreshold tbl ≤ pa.2 → pa ∈ foldAmounts tbl)
    ∧ ((∃ pa ∈ tbl, pa.2 < effThreshold tbl) →
        ("Other minor payers",
          ((tbl.filter (fun p => p.2 < effThreshold tbl)).map (fun p => p.2)).sum)
          ∈ foldAmounts tbl)
    ∧ ((∀ pa ∈ tbl, effThreshold tbl ≤ pa.2) →
        ∀ x ∈ foldAmounts tbl, x.1 ∈ tbl.map (fun p => p.1))
    ∧ (foldAmounts tbl).Sorted (fun x y => y.2 ≤ x.2) := by
  refine ⟨rfl, ?_, ?_, ?_, ?_, ?_⟩
  · intro pa hpa hlt x hx heq
    rcases (mem_withOtherA tbl x).mp ((mem_foldAmounts tbl x).mp hx) with ⟨hyc, hyge⟩ | ⟨_, rfl⟩
    · have hx2 : (pa.1, x.2) ∈ tbl := by
        have hxx : x = (pa.1, x.2) := by rw [← heq]
        rw [← hxx]
        exact hyc
      have hsame : x.2 = pa.2 := fst_nodup_unique tbl hnd hx2 hpa
      rw [hsame] at hyge
      exact absurd hlt (not_lt.mpr hyge)
    · have heq' : "Other minor payers" = pa.1 := heq
      exact hoth (heq'.symm ▸ List.mem_map.mpr ⟨pa, hpa, rfl⟩)
  · intro pa hpa hge
    exact (mem_foldAmounts tbl pa).mpr ((mem_withOtherA tbl pa).mpr (Or.inl ⟨hpa, hge⟩))
  · rintro ⟨pa, hpa, hlt⟩
    have hne : minorA tbl ≠ [] :=
      List.ne_nil_of_mem (List.mem_filter.mpr ⟨hpa, by simpa using hlt⟩)
    exact (mem_foldAmounts tbl _).mpr ((mem_withOtherA tbl _).mpr (Or.inr ⟨hne, rfl⟩))
  · intro hall x hx
    rcases (mem_withOtherA tbl x).mp ((mem_foldAmounts tbl x).mp hx) with ⟨hyc, _⟩ | ⟨hne, _⟩
    · exact List.mem_map.mpr ⟨x, hyc, rfl⟩
    · exact absurd (List.filter_eq_nil_iff.mpr
        (fun pa hpa => by simpa using not_lt.mpr (hall pa hpa))) hne
  · exact List.sorted_insertionSort amtGe2 (withOtherA tbl)

/-- C5 (witness): a concrete two-payer table (threshold = interpolated 10th
percentile 10.9 > 0) satisfying the hypotheses; the folded output is sorted
descending by amount. -/
theorem C5_witness :
    ((([("X", 100), ("Y", 1)] : List (String × ℚ)).map (fun p => p.1)).Nodup
      ∧ "Other minor payers" ∉ ([("X", 100), ("Y", 1)] : List (String × ℚ)).map (fun p => p.1))
    ∧ (foldAmounts [("X", 100), ("Y", 1)]).Sorted (fun x y => y.2 ≤ x.2) :=
  ⟨⟨by decide, by decide⟩,
    (C5_quantile_threshold_folding [("X", 100), ("Y", 1)] (by decide) (by decide)).2.2.2.2.2⟩

/-! ## C10: per-row unparseable claim dates in the provider-visit cross-tab -/

theorem pvRows_nodup (b : Batch371) : ((pvRows b).map (fun r => r.claimNo)).Nodup := by
  simp only [pvRows, dedupBy]
  exact nodup_key_dedupSeen _ _ _

theorem cnt_eq_length (b : Batch371) (p m : String) :
    cnt b p m
      = (((rowsM b).filter (fun r => fillProv r == p)).filter
          (fun r => monthOf b r == some m)).length := by
  unfold cnt
  have hsub : ((((rowsM b).filter (fun r => fillProv r == p)).filter
        (fun r => monthOf b r == some m)).map (fun r => r.claimNo)).Sublist
      ((pvRows b).map (fun r => r.claimNo)) := by
    apply List.Sublist.map
    exact (List.filter_sublist _).trans ((List.filter_sublist _).trans (List.filter_sublist _))
  have hnd := List.Nodup.sublist hsub (pvRows_nodup b)
  rw [List.dedup_eq_self.mpr hnd, List.length_map]

theorem msOf_nodup (b : Batch371) : (msOf b).Nodup :=
  ((sortStrings_perm _).nodup_iff).mpr (nodup_dedupK _)

theorem psOf_nodup (b : Batch371) : (psOf b).Nodup :=
  ((sortStrings_perm _).nodup_iff).mpr (nodup_dedupK _)

theorem mem_msOf (b : Batch371) {a : Row371} (ha : a ∈ rowsM b) {m : String}
    (hm : monthOf b a = some m) : m ∈ msOf b := by
  unfold msOf
  rw [(sortStrings_perm _).mem_iff, mem_dedupK]
  exact List.mem_filterMap.mpr ⟨a, ha, hm⟩

theorem mem_psOf (b : Batch371) {a : Row371} (ha : a ∈ rowsM b) : fillProv a ∈ psOf b := by
  unfold psOf
  rw [(sortStrings_perm _).mem_iff, mem_dedupK]
  exact List.mem_map.mpr ⟨a, ha, rfl⟩

theorem ptGrandTotal_counts (b : Batch371) :
    ptGrandTotalGt b = (rowsM b).length := by
  have hinner : ∀ p ∈ psOf b, ((msOf b).map (fun m => cnt b p m)).sum
      = ((rowsM b).filter (fun r => fillProv r == p)).length := by
    intro p _
    have hcnt : ∀ m ∈ msOf b, cnt b p m
        = (((rowsM b).filter (fun r => fillProv r == p)).filter
            (fun r => decide (monthOf b r = some m))).length := by
      intro m _
      rw [cnt_eq_length b p m]
      congr 1
      apply List.filter_congr
      intro a _
      exact beq_eq_decideEq _ _
    rw [List.map_congr_left hcnt]
    have hkeys : (((msOf b).map some) : List (Option String)).Nodup :=
      (msOf_nodup b).map (Option.some_injective _)
    have hcov : ∀ a ∈ (rowsM b).filter (fun r => fillProv r == p),
        monthOf b a ∈ (msOf b).map some := by
      intro a ha
      have ham : a ∈ rowsM b := List.mem_of_mem_filter ha
      have hsome : (monthOf b a).isSome = true := by
        have ham' : a ∈ (pvRows b).filter (fun r => (monthOf b r).isSome) := ham
        exact (List.mem_filter.mp ham').2
      obtain ⟨m', hm'⟩ := Option.isSome_iff_exists.mp hsome
      rw [hm']
      exact List.mem_map.mpr ⟨m', mem_msOf b ham hm', rfl⟩
    have hfib := sum_length_fibres (fun r => monthOf b r) ((msOf b).map some)
      ((rowsM b).filter (fun r => fillProv r == p)) hkeys hcov
    rw [List.map_map] at hfib
    exact hfib
  have houter : ((psOf b).map (fun p =>
      ((rowsM b).filter (fun r => fillProv r == p)).length)).sum = (rowsM b).length := by
    have hconv : ∀ p ∈ psOf b,
        ((rowsM b).filter (fun r => fillProv r == p)).length
          = ((rowsM b).filter (fun r => decide (fillProv r = p))).length := by
      intro p _
      have hpt : ∀ a ∈ rowsM b, (fillProv a == p) = decide (fillProv a = p) :=
        fun a _ => beq_eq_decideEq _ _
      rw [List.filter_congr hpt]
    rw [List.map_congr_left hconv]
    exact sum_length_fibres fillProv (psOf b) (rowsM b) (psOf_nodup b)
      (fun a ha => mem_psOf b ha)
  calc ptGrandTotalGt b
      = ((psOf b).map (fun p => ((msOf b).map (fun m => cnt b p m)).sum)).sum := rfl
    _ = ((psOf b).map (fun p =>
          ((rowsM b).filter (fun r => fillProv r == p)).length)).sum := by
        rw [List.map_congr_left hinner]
    _ = (rowsM b).length := houter

/-- C10.  In the provider-visit cross-tab, when the `Claim Date` column exists
a row whose date is unparseable gets a null month label and is silently
excluded from the groupby: it contributes to no month column and to no grand
total (the overall grand total counts exactly the rows with a parseable
claim date); only when the `Claim Date` column is entirely absent do all
rows receive the single "Unknown" label. -/
theorem C10_month_label_policy (b : Batch371) :
    (b.hasClaimDate = true →
      (∀ r : Row371, monthOf b r = none ↔ r.claimDate = none)
      ∧ ptGrandTotalGt b = ((pvRows b).filter (fun r => r.claimDate.isSome)).length)
    ∧ (b.hasClaimDate = false → ∀ r : Row371, monthOf b r = some "Unknown") := by
  constructor
  · intro h
    constructor
    · intro r
      cases hc : r.claimDate <;> simp [monthOf, h, hc]
    · rw [ptGrandTotal_counts b]
      unfold rowsM
      congr 1
      apply List.filter_congr
      intro r _
      cases hc : r.claimDate <;> simp [monthOf, h, hc]
  · intro h r
    simp [monthOf, h]

/-- A minimal claim line, for the concrete batches below. -/
def mkRow (cn : String) (prov : Option String) (cd : Option YM) : Row371 :=
  { claimNo := cn, provider := prov, payer := none, startDOS := none, claimDate := cd,
    statusCode := none, statusGroup := none, billed := none, totalPayment := none,
    payerPayment := none, contractualAdj := none, allowedFee := none, totalBalance := none }

/-- A batch with the `Claim Date` column present: one parseable date, one
unparseable one. -/
def c10yes : Batch371 :=
  { rows := [mkRow "A1" (some "P") (some ⟨2025, 1⟩), mkRow "B2" (some "P") none]
    hasStartDOS := false, hasClaimDate := true, hasStatusCode := false,
    hasTotalBalance := false }

/-- A batch with the `Claim Date` column absent. -/
def c10no : Batch371 :=
  { rows := [mkRow "A1" (some "P") none]
    hasStartDOS := false, hasClaimDate := false, hasStatusCode := false,
    hasTotalBalance := false }

/-- C10 (witness): both branches applied to concrete batches; on `c10yes` the
grand total is 1 — the unparseable-date row "B2" contributes nothing. -/
theorem C10_witness :
    ((∀ r : Row371, monthOf c10yes r = none ↔ r.claimDate = none)
      ∧ ptGrandTotalGt c10yes = ((pvRows c10yes).filter (fun r => r.claimDate.isSome)).length)
    ∧ (∀ r : Row371, monthOf c10no r = some "Unknown")
    ∧ ptGrandTotalGt c10yes = 1 :=
  ⟨(C10_month_label_policy c10yes).1 rfl, (C10_month_label_policy c10no).2 rfl, by decide⟩

/-! ## C8: the `% Share` rounding -/

theorem ptFull_share (b : Batch371) :
    ∀ r ∈ ptFull b, r.share = ((rhe ((r.gt : ℚ) / (ptGrandTotalGt b : ℚ) * 100)) : ℚ) := by
  intro r hr
  obtain ⟨y, _, rfl⟩ := List.mem_map.mp hr
  rfl

/-- A batch of 8 claims in one month: provider "A" has 1, provider "B" has 7,
so A's exact share is 12.5%. -/
def c8batch : Batch371 :=
  { rows := [mkRow "c1" (some "A") (some ⟨2025, 1⟩), mkRow "c2" (some "B") (some ⟨2025, 1⟩),
             mkRow "c3" (some "B") (some ⟨2025, 1⟩), mkRow "c4" (some "B") (some ⟨2025, 1⟩),
             mkRow "c5" (some "B") (some ⟨2025, 1⟩), mkRow "c6" (some "B") (some ⟨2025, 1⟩),
             mkRow "c7" (some "B") (some ⟨2025, 1⟩), mkRow "c8" (some "B") (some ⟨2025, 1⟩)]
    hasStartDOS := false, hasClaimDate := true, hasStatusCode := false,
    hasTotalBalance := false }

/-- C8 (counterexample).  The claim says `% Share` uses banker's-rounding-free
standard rounding to the nearest integer.  On `c8batch`, provider "A" holds 1
of 8 claims, an exact share of 12.5%; the code's
`((pt_full['Grand Total'] / total_claims) * 100).round(0)` is numpy rounding
(half to even) and produces 12, while the claim's standard rounding of 12.5
produces 13. -/
theorem C8_counterexample :
    ((ptFull c8batch).find? (fun r => r.label == "A")).map (fun r => r.share) = some 12
    ∧ specRoundStd ((1 : ℚ) / 8 * 100) = 13 := by
  constructor
  · have h1 : ((ptFull c8batch).find? (fun r => r.label == "A")).map (fun r => (r.label, r.gt))
        = some ("A", 1) := by decide
    obtain ⟨r, hr, hlab⟩ : ∃ r, (ptFull c8batch).find? (fun r => r.label == "A") = some r
        ∧ (r.label, r.gt) = ("A", 1) := by
      cases hf : (ptFull c8batch).find? (fun r => r.label == "A") with
      | none => rw [hf] at h1; exact absurd h1 (by simp)
      | some r => rw [hf] at h1; exact ⟨r, rfl, by simpa using h1⟩
    have hmem : r ∈ ptFull c8batch := List.mem_of_find?_eq_some hr
    have hsh := ptFull_share c8batch r hmem
    have hgt : r.gt = 1 := congrArg Prod.snd hlab
    have htot : ptGrandTotalGt c8batch = 8 := by decide
    rw [hr, Option.map_some', hsh, hgt, htot]
    have harg : ((1 : ℕ) : ℚ) / ((8 : ℕ) : ℚ) * 100 = 25 / 2 := by norm_num
    rw [harg]
    have hf : ⌊(25 / 2 : ℚ)⌋ = 12 := by
      rw [Int.floor_eq_iff]
      norm_num
    unfold rhe
    rw [hf]
    norm_num
  · unfold specRoundStd
    have harg : (1 : ℚ) / 8 * 100 + 1 / 2 = 13 := by norm_num
    rw [harg]
    have : ((13 : ℤ) : ℚ) = (13 : ℚ) := by norm_num
    rw [← this, Int.floor_intCast]

/-- C8 (amended).  Each row's `% Share` in `pt_full` equals
`round(row grand total / overall grand total * 100)` under numpy's
round-half-to-even (the rounding `Series.round(0)` actually performs), and
the grand-total row's own share is 100, whenever the overall grand total is
nonzero. -/
theorem C8_share_rounding (b : Batch371) (h : ptGrandTotalGt b ≠ 0) :
    (∀ r ∈ ptFull b, r.share = ((rhe ((r.gt : ℚ) / (ptGrandTotalGt b : ℚ) * 100)) : ℚ))
    ∧ ∃ tr, (ptFull b).getLast? = some tr ∧ tr.share = 100 := by
  refine ⟨ptFull_share b, ?_⟩
  rw [ptFull_split b, List.getLast?_concat]
  refine ⟨_, rfl, ?_⟩
  show ((rhe (((ptTotalRow b).gt : ℚ) / ((ptTotalRow b).gt : ℚ) * 100)) : ℚ) = 100
  rw [div_self (Nat.cast_ne_zero.mpr h), one_mul]
  have hf : ⌊(100 : ℚ)⌋ = 100 := by
    have : ((100 : ℤ) : ℚ) = (100 : ℚ) := by norm_num
    rw [← this, Int.floor_intCast]
  unfold rhe
  rw [hf]
  norm_num

/-- C8 (witness): the amended theorem applied to `c8batch` (grand total 8). -/
theorem C8_witness :
    ptGrandTotalGt c8batch ≠ 0
    ∧ ((∀ r ∈ ptFull c8batch,
          r.share = ((rhe ((r.gt : ℚ) / (ptGrandTotalGt c8batch : ℚ) * 100)) : ℚ))
        ∧ ∃ tr, (ptFull c8batch).getLast? = some tr ∧ tr.share = 100) :=
  ⟨by decide, C8_share_rounding c8batch (by decide)⟩

end Relief
